import Mathlib

/-!
Verification development for the STIGQter repository.

The definitions below are a shallow embedding of the data-access
layer and of the import and report-generation layers:

* Qt string primitives (`QString::indexOf`, `left`, `right`, `mid`,
  `toInt`, …) modelled over `List Char`;
* the control-index extraction of `WorkerCCIAdd::process`
  (src/workercciadd.cpp, "Step 6: Parse all CCIs");
* the streaming CCI parse loop of `WorkerCCIAdd::process` as a fold
  over an abstract list of XML reader events (`QXmlStreamReader`
  either yields an element or enters an error state that terminates
  the `while (!xml->atEnd() && !xml->hasError())` loop);
* the pass/fail partition and row emission of
  `WorkerEMASSReport::process` (src/workeremassreport.cpp);
* the relational store (`DbManager`) with the entity rows and the
  CRUD operations the spec describes.  The bodies of the `DbManager`
  operations, the checklist export/import workers and the control-id
  resolution are not among the provided sources; those definitions
  are modelled from the spec and are marked as such in their doc
  comments.
-/

/-! ### QString primitives over `List Char` -/

/-- Index of the first occurrence of `c` in the list (`QString::indexOf`
returns the position or `-1`; this helper returns an `Option Nat`). -/
def qFind (c : Char) : List Char → Option Nat
  | [] => none
  | x :: xs => if x = c then some 0 else (qFind c xs).map (· + 1)

/-- `QString::indexOf(QChar)`: position of the first occurrence, `-1` if absent. -/
def qIndexOf (s : List Char) (c : Char) : Int :=
  match qFind c s with
  | none => -1
  | some n => n

/-- `QString::indexOf(QChar, from)`: first occurrence at or after position
`from`; a negative `from` counts from the end of the string (clamped at 0). -/
def qIndexOfFrom (s : List Char) (c : Char) (f : Int) : Int :=
  let start : Nat := if f < 0 then (f + s.length).toNat else f.toNat
  match qFind c (s.drop start) with
  | none => -1
  | some n => ((n + start : Nat) : Int)

/-- `QString::left(n)`: the `n` leftmost characters; the whole string when
`n` is negative or not smaller than the length. -/
def qLeft (s : List Char) (n : Int) : List Char :=
  if n < 0 then s else s.take n.toNat

/-- `QStringRef(&s, pos, len)`: the substring of length `len` starting at
`pos`.  The constructor requires a valid range; out-of-contract negative
arguments are clamped to 0 here. -/
def qMid (s : List Char) (pos len : Int) : List Char :=
  (s.drop pos.toNat).take len.toNat

/-- `QString::right(n)`: the `n` rightmost characters. -/
def qRight (s : List Char) (n : Nat) : List Char :=
  s.drop (s.length - n)

/-- `QString::contains(QChar)`. -/
def qContains (s : List Char) (c : Char) : Bool :=
  s.any (fun x => x == c)

/-- Numeric value of a decimal digit character. -/
def charToDigit (c : Char) : Nat := c.toNat - 48

/-- Value of a big-endian list of decimal digit characters. -/
def digitsToNat (s : List Char) : Nat :=
  s.foldl (fun a c => a * 10 + charToDigit c) 0

/-- `QString::toInt()`: the represented integer, or 0 when the string is
not a well-formed integer. -/
def qToInt (s : List Char) : Int :=
  match s with
  | '-' :: rest =>
      if rest ≠ [] ∧ rest.all Char.isDigit then -(digitsToNat rest : Int) else 0
  | '+' :: rest =>
      if rest ≠ [] ∧ rest.all Char.isDigit then (digitsToNat rest : Int) else 0
  | _ => if s ≠ [] ∧ s.all Char.isDigit then (digitsToNat s : Int) else 0

/-- Big-endian decimal digit characters of `n / 10^0, …` computed with
explicit fuel so that the function is structurally recursive. -/
def natToCharsCore : Nat → Nat → List Char
  | 0, _ => []
  | fuel + 1, n =>
      if n = 0 then [] else natToCharsCore fuel (n / 10) ++ [Nat.digitChar (n % 10)]

/-- Standard decimal rendering of a natural number. -/
def natToChars (n : Nat) : List Char :=
  if n = 0 then ['0'] else natToCharsCore n n

/-! ### Control-index extraction (src/workercciadd.cpp, lines 277–294)

For a reference `index` attribute such as `"AC-2 (1)"` the import
derives the control name: it truncates at the first space and at a
period, and re-attaches a parenthesized enhancement unless the
parenthesis appears after a second space. -/

/-- The control-name extraction of `WorkerCCIAdd::process`:
`QString control = index; …` (src/workercciadd.cpp:277–294). -/
def indexToControl (index : List Char) : List Char :=
  let tmpIndex := qIndexOf index ' '
  let control0 := index
  let control1 :=
    if qContains control0 ' ' then qLeft control0 (qIndexOf control0 ' ') else control0
  let control2 :=
    if qContains control1 '.' then qLeft control1 (qIndexOf control1 '.') else control1
  if qContains index '(' then
    let tmpIndex2 := qIndexOfFrom index ' ' (tmpIndex + 1)
    let tmpInt := qIndexOf index '('
    if tmpIndex2 ≤ 0 ∨ tmpInt < tmpIndex2 then
      control2 ++ qMid index tmpInt (qIndexOf index ')' - tmpInt + 1)
    else control2
  else control2

/-- The part of a control-id string after the family acronym and the
dash separator. -/
def specAfterDash (s : List Char) : List Char :=
  let r1 := s.dropWhile (fun c => c.isAlpha)
  if r1.head? = some '-' then r1.tail else r1

/-- The optional parenthesized enhancement index at the end of a
control-id string (spaces before the parenthesis are ignored). -/
def specEnh (r3 : List Char) : Option Nat :=
  match r3.dropWhile (fun c => c == ' ') with
  | '(' :: r5 =>
      if r5.takeWhile (fun c => c.isDigit) ≠ [] ∧
          (r5.dropWhile (fun c => c.isDigit)).head? = some ')' then
        some (digitsToNat (r5.takeWhile (fun c => c.isDigit)))
      else none
  | _ => none

/-- Modelled from the spec: `DbManager::GetControl`'s textual control-id
parse ("family letters + number + optional parenthesized enhancement",
spec §4.2).  The `DbManager` implementation is not among the provided
sources.  The parse takes the leading letters as the family acronym,
skips a dash, reads the control number, and reads an optional
parenthesized enhancement index. -/
def specParseControl (s : List Char) : List Char × Nat × Option Nat :=
  (s.takeWhile (fun c => c.isAlpha),
   digitsToNat ((specAfterDash s).takeWhile (fun c => c.isDigit)),
   specEnh ((specAfterDash s).dropWhile (fun c => c.isDigit)))

/-- A well-formed reference index string: family letters, a dash, a
decimal number, and an optional parenthesized enhancement after one
space — the shape the claim quantifies over (for example `"AC-2 (1)"`). -/
def renderIndex (fam : List Char) (n : Nat) (enh : Option Nat) : List Char :=
  fam ++ '-' :: natToChars n ++
    (match enh with
     | none => []
     | some e => ' ' :: '(' :: (natToChars e ++ [')']))

/-! ### The streaming CCI parse loop (src/workercciadd.cpp, lines 237–306)

`QXmlStreamReader` is modelled as a list of reader events.  A start
element carries the attributes the loop reads (`none` = attribute
absent); `errorTok` stands for the reader entering its error state, at
which point `while (!xml->atEnd() && !xml->hasError())` exits. -/

inductive XmlEvent where
  | cciItem (idAttr : Option (List Char))
  | definitionEl (text : List Char)
  | referenceEl (version : Option (List Char)) (index : Option (List Char))
  | otherEl
  | errorTok
deriving DecidableEq

/-- A CCI row assembled by the parse loop.  `cciNum` is
`cci.rightRef(6).toInt()`; `controlName` is the extracted control
string handed to the `DbManager` lookup; `definition` the last
`definition` element text. -/
structure ParsedCCI where
  cciNum : Int
  controlName : List Char
  definition : List Char
deriving DecidableEq

/-- The loop state: the current `cci` id string, the current
`definition` text, and the accumulated `toAdd` list. -/
structure ParseSt where
  cci : List Char
  definition : List Char
  toAdd : List ParsedCCI
deriving DecidableEq

def initParseSt : ParseSt := { cci := [], definition := [], toAdd := [] }

/-- One iteration body of the parse loop of `WorkerCCIAdd::process`
(src/workercciadd.cpp:242–304): a `cci_item` start element updates the
current id when the `id` attribute is present; a `definition` element
updates the definition text; a `reference` element with present,
non-empty `version` and `index` attributes, `version == "4"` and a
non-empty current id appends a row whose number is parsed from the
last six characters of the id. -/
def stepParse (st : ParseSt) (e : XmlEvent) : ParseSt :=
  match e with
  | .cciItem idAttr =>
      match idAttr with
      | some v => { st with cci := v }
      | none => st
  | .definitionEl t => { st with definition := t }
  | .referenceEl ver idx =>
      match ver, idx with
      | some v, some ix =>
          if st.cci ≠ [] then
            if v ≠ [] ∧ ix ≠ [] ∧ v = ['4'] then
              { st with toAdd := st.toAdd ++
                  [{ cciNum := qToInt (qRight st.cci 6),
                     controlName := indexToControl ix,
                     definition := st.definition }] }
            else st
          else st
      | _, _ => st
  | .otherEl => st
  | .errorTok => st

/-- The parse loop: events are consumed in order until the list ends or
the reader reports an error (`while (!xml->atEnd() && !xml->hasError())`). -/
def runParse (st : ParseSt) : List XmlEvent → ParseSt
  | [] => st
  | e :: rest => if e = .errorTok then st else runParse (stepParse st e) rest

/-- The outer loop of Step 6: each XML file of the downloaded archive is
parsed with a fresh reader, the `toAdd` rows accumulating across files
(`Q_FOREACH (const QByteArray &xmlFile, xmlFiles)`). -/
def parseAllFiles (files : List (List XmlEvent)) : List ParsedCCI :=
  files.foldl (fun acc evs => acc ++ (runParse initParseSt evs).toAdd) []

/-! ### The eMASS Test Result report (src/workeremassreport.cpp)

Entity records carry the fields the report reads.  The `QMap`s keyed
by `CCI` are modelled as association lists whose keys are compared by
CCI number (the natural key of a CCI). -/

inductive Status where
  | NotReviewed
  | Open
  | NotAFinding
  | NotApplicable
deriving DecidableEq

/-- A `CCI` row as read by the report: its number, its imported
test-result fields, and its definition. -/
structure CCIr where
  cci : Nat
  isImport : Bool
  importCompliance : String
  importDateTested : String
  importTestedBy : String
  importTestResults : String
  definition : String
deriving DecidableEq

/-- A `CKLCheck` joined to its `STIGCheck`/`CCI` ancestry as the report
reads it (`cc.GetSTIGCheck().GetCCI()`).  Only the fields the report
logic touches are carried; the asset and finding details feed the
free-text results column. -/
structure CKLCheckr where
  cci : CCIr
  status : Status
  assetId : Nat
  findingDetails : String
deriving DecidableEq

/-- `QMap<CCI, QList<CKLCheck>>` as an association list. -/
abbrev CCIMap := List (CCIr × List CKLCheckr)

/-- `QMap::contains`, with keys compared by CCI number. -/
def mapContainsNum (m : CCIMap) (k : Nat) : Bool :=
  m.any (fun p => p.1.cci == k)

/-- Append a check to the entry of an existing key. -/
def mapAppendNum (m : CCIMap) (k : Nat) (cc : CKLCheckr) : CCIMap :=
  m.map (fun p => if p.1.cci == k then (p.1, p.2 ++ [cc]) else p)

/-- `QMap::remove` of a key. -/
def mapRemoveNum (m : CCIMap) (k : Nat) : CCIMap :=
  m.filter (fun p => p.1.cci != k)

/-- One iteration of the classification loop of
`WorkerEMASSReport::process` (src/workeremassreport.cpp:164–191): an
`Open` check evicts its CCI from the passed map and adds it to the
failed map; a `NotAFinding` check adds its CCI to the passed map
unless the CCI is already failed (`s == Status::NotAFinding &&
!failedCCIs.contains(c)`); other statuses are ignored.  The source's
if/else-if chain on the status enum is rendered as a match. -/
def classifyStep (st : CCIMap × CCIMap) (cc : CKLCheckr) : CCIMap × CCIMap :=
  match cc.status with
  | Status.Open =>
      (if mapContainsNum st.1 cc.cci.cci then mapAppendNum st.1 cc.cci.cci cc
       else st.1 ++ [(cc.cci, [cc])],
       if mapContainsNum st.2 cc.cci.cci then mapRemoveNum st.2 cc.cci.cci else st.2)
  | Status.NotAFinding =>
      if mapContainsNum st.1 cc.cci.cci then st
      else
        (st.1,
         if mapContainsNum st.2 cc.cci.cci then mapAppendNum st.2 cc.cci.cci cc
         else st.2 ++ [(cc.cci, [cc])])
  | _ => st

/-- The full classification pass over `db.GetCKLChecks()`. -/
def classify (checks : List CKLCheckr) : CCIMap × CCIMap :=
  checks.foldl classifyStep ([], [])

/-- A data row of the Test Result Import worksheet (columns 0–6 are
static control/CCI information; `complianceStatus`, `dateTested`,
`testedBy` and the current test-results data are columns 7–10; the
latest-test-result columns are 11–14).  The free-text rendering of
column 10 (via `PrintAsset`/`PrintCKLCheck`, defined outside the
provided sources) is kept as the list of contributing checks. -/
structure Row where
  cci : CCIr
  complianceStatus : String
  dateTested : String
  testedBy : String
  currentChecks : List CKLCheckr
  latestCompliance : String
  latestDateTested : String
  latestTestedBy : String
  latestTestResults : String
deriving DecidableEq

/-- A row of the failed-CCIs loop (src/workeremassreport.cpp:206–256).
The source sorts the checks with a comparator defined outside the
provided sources before rendering column 10; the claims under
verification do not depend on that order. -/
def failedRow (curDate username : String) (p : CCIr × List CKLCheckr) : Row :=
  { cci := p.1
    complianceStatus := "Non-Compliant"
    dateTested := curDate
    testedBy := username
    currentChecks := p.2
    latestCompliance := if p.1.isImport then p.1.importCompliance else ""
    latestDateTested := if p.1.isImport then p.1.importDateTested else ""
    latestTestedBy := if p.1.isImport then p.1.importTestedBy else ""
    latestTestResults := if p.1.isImport then p.1.importTestResults else "" }

/-- A row of the passed-CCIs loop (src/workeremassreport.cpp:259–307). -/
def passedRow (curDate username : String) (p : CCIr × List CKLCheckr) : Row :=
  { cci := p.1
    complianceStatus := "Compliant"
    dateTested := curDate
    testedBy := username
    currentChecks := p.2
    latestCompliance := if p.1.isImport then p.1.importCompliance else ""
    latestDateTested := if p.1.isImport then p.1.importDateTested else ""
    latestTestedBy := if p.1.isImport then p.1.importTestedBy else ""
    latestTestResults := if p.1.isImport then p.1.importTestResults else "" }

/-- A row of the old-test-results loop (src/workeremassreport.cpp:309–350):
columns 7–10 are written empty, columns 11–14 carry the imported data. -/
def importRow (c : CCIr) : Row :=
  { cci := c
    complianceStatus := ""
    dateTested := ""
    testedBy := ""
    currentChecks := []
    latestCompliance := if c.isImport then c.importCompliance else ""
    latestDateTested := if c.isImport then c.importDateTested else ""
    latestTestedBy := if c.isImport then c.importTestedBy else ""
    latestTestResults := if c.isImport then c.importTestResults else "" }

/-- The data rows emitted by `WorkerEMASSReport::process`: the failed
CCIs, then the passed CCIs, then every imported CCI that is in neither
map (`if (!c.isImport || failedCCIs.contains(c) || passedCCIs.contains(c))
continue;`). -/
def emassRows (ccis : List CCIr) (checks : List CKLCheckr) (curDate username : String) :
    List Row :=
  (classify checks).1.map (failedRow curDate username)
    ++ (classify checks).2.map (passedRow curDate username)
    ++ (ccis.filter (fun c =>
          c.isImport && !(mapContainsNum (classify checks).1 c.cci)
            && !(mapContainsNum (classify checks).2 c.cci))).map importRow

/-- A CCI is emitted with the given compliance status. -/
def emittedWith (rows : List Row) (k : Nat) (s : String) : Prop :=
  ∃ r ∈ rows, r.cci.cci = k ∧ r.complianceStatus = s

/-- Some check mapped to the CCI number `k` has status `Open`. -/
def hasOpenFor (checks : List CKLCheckr) (k : Nat) : Prop :=
  ∃ cc ∈ checks, cc.cci.cci = k ∧ cc.status = Status.Open

/-- Some check mapped to the CCI number `k` has status `NotAFinding`. -/
def hasNafFor (checks : List CKLCheckr) (k : Nat) : Prop :=
  ∃ cc ∈ checks, cc.cci.cci = k ∧ cc.status = Status.NotAFinding

/-! ### The relational store (`DbManager`)

The `DbManager` method bodies are not among the provided sources; the
operations below are modelled from the spec (§3 invariants, §7 failure
semantics, §8 testable properties): precondition violations return
failure and leave the store unchanged. -/

structure FamilyR where
  acronym : String
  description : String
deriving DecidableEq

structure DbCCI where
  id : Nat
  controlId : Nat
  cci : Nat
  definition : String
deriving DecidableEq

structure StigR where
  id : Nat
  title : String
  description : String
  release : String
  version : Nat
  benchmarkId : String
  fileName : String
deriving DecidableEq

structure StigCheckR where
  id : Nat
  stigId : Nat
  cciId : Nat
  rule : String
  vulnNum : String
  severity : Nat
deriving DecidableEq

structure AssetR where
  id : Nat
  hostName : String
  hostIP : String
  hostMAC : String
  hostFQDN : String
deriving DecidableEq

structure CklCheckR where
  assetId : Nat
  stigCheckId : Nat
  status : Status
  findingDetails : String
  comments : String
  severityOverride : Option Nat
  severityJustification : String
deriving DecidableEq

/-- The relational store: one list of rows per entity;
`assetStigs` holds `(assetId, stigId)` association pairs. -/
structure DB where
  families : List FamilyR
  ccis : List DbCCI
  stigs : List StigR
  stigChecks : List StigCheckR
  assets : List AssetR
  assetStigs : List (Nat × Nat)
  cklChecks : List CklCheckR
deriving DecidableEq

/-- Modelled from the spec: `DbManager::AddFamily` — re-importing a
Family with an existing acronym (its natural key) is rejected with a
warning and does not modify the existing row (spec §8). -/
def addFamily (db : DB) (f : FamilyR) : Bool × DB :=
  if db.families.any (fun g => g.acronym == f.acronym) then (false, db)
  else (true, { db with families := db.families ++ [f] })

/-- Modelled from the spec: `DbManager::AddCCI` — re-importing a CCI
with an existing CCI number (its natural key) is rejected with a
warning and does not modify the existing row (spec §8). -/
def addCCI (db : DB) (c : DbCCI) : Bool × DB :=
  if db.ccis.any (fun d => d.cci == c.cci) then (false, db)
  else (true, { db with ccis := db.ccis ++ [c] })

/-- Modelled from the spec: `DbManager::AddSTIG` — re-importing a STIG
with an existing (title, version, release) natural key is rejected
with a warning and does not modify the existing row (spec §3, §8). -/
def addStig (db : DB) (s : StigR) : Bool × DB :=
  if db.stigs.any (fun t =>
      t.title == s.title && t.version == s.version && t.release == s.release) then
    (false, db)
  else (true, { db with stigs := db.stigs ++ [s] })

/-- Modelled from the spec: `DbManager::DeleteAsset` — an Asset cannot
be deleted while it has associated STIGs; the operation warns and
fails without side effects (spec §3, §8). -/
def deleteAsset (db : DB) (a : AssetR) : Bool × DB :=
  if db.assetStigs.any (fun p => p.1 == a.id) then (false, db)
  else (true, { db with assets := db.assets.filter (fun x => x.id != a.id) })

/-- Modelled from the spec: `DbManager::DeleteSTIG` — a STIG cannot be
deleted while any Asset references it; the operation warns and fails
without side effects; on success the STIG and its STIGChecks are
deleted as a unit (spec §3, §8; the caller is
`STIGQter::DeleteSTIGs`, src/stigqter.cpp:364–388). -/
def deleteStig (db : DB) (s : StigR) : Bool × DB :=
  if db.assetStigs.any (fun p => p.2 == s.id) then (false, db)
  else (true, { db with stigs := db.stigs.filter (fun t => t.id != s.id),
                        stigChecks := db.stigChecks.filter (fun c => c.stigId != s.id) })

/-- The default per-asset evaluation record for one STIGCheck. -/
def defaultCklCheck (a : AssetR) (sc : StigCheckR) : CklCheckR :=
  { assetId := a.id
    stigCheckId := sc.id
    status := Status.NotReviewed
    findingDetails := ""
    comments := ""
    severityOverride := none
    severityJustification := "" }

/-- Modelled from the spec: `DbManager::AddSTIGToAsset` — attaching a
STIG to an Asset creates, in one transaction, one CKLCheck per
STIGCheck of the STIG, each with default status "not reviewed"
(spec §3, §8); attaching an already-attached STIG fails without side
effects. -/
def addStigToAsset (db : DB) (s : StigR) (a : AssetR) : Bool × DB :=
  if db.assetStigs.any (fun p => p.1 == a.id && p.2 == s.id) then (false, db)
  else
    (true, { db with
        assetStigs := db.assetStigs ++ [(a.id, s.id)]
        cklChecks := db.cklChecks ++
          (db.stigChecks.filter (fun sc => sc.stigId == s.id)).map (defaultCklCheck a) })

/-! ### Checklist (.ckl) export and import

`WorkerCKLExport` and `WorkerCKLImport` are not among the provided
sources; the serialization is modelled from the spec (§6 inputs and
outputs, §8 round-trip property) and the vendor checklist format's
STATUS vocabulary. -/

/-- An exported checklist entry: the vulnerability identity of the
STIGCheck, the serialized status, and the free-text fields. -/
structure CklEntry where
  vuln : Nat
  status : String
  findingDetails : String
  comments : String
deriving DecidableEq

/-- Serialization of a check status into the checklist STATUS vocabulary. -/
def statusToCkl : Status → String
  | Status.NotReviewed => "Not_Reviewed"
  | Status.Open => "Open"
  | Status.NotAFinding => "NotAFinding"
  | Status.NotApplicable => "Not_Applicable"

/-- Parse of a checklist STATUS string; unrecognized strings default to
"not reviewed". -/
def cklToStatus (s : String) : Status :=
  if s = "Open" then Status.Open
  else if s = "NotAFinding" then Status.NotAFinding
  else if s = "Not_Applicable" then Status.NotApplicable
  else Status.NotReviewed

/-- Modelled from the spec: `WorkerCKLExport` — export the evaluation
records of one Asset/STIG pair into a checklist file. -/
def exportCkl (db : DB) (a : AssetR) (s : StigR) : List CklEntry :=
  (db.cklChecks.filter (fun ck =>
      ck.assetId == a.id &&
        db.stigChecks.any (fun sc => sc.id == ck.stigCheckId && sc.stigId == s.id))).map
    (fun ck =>
      { vuln := ck.stigCheckId
        status := statusToCkl ck.status
        findingDetails := ck.findingDetails
        comments := ck.comments })

/-- Modelled from the spec: `WorkerCKLImport` — import a checklist file
for an Asset, updating each matching evaluation record with the
status and free-text fields read from the file. -/
def importCkl (db : DB) (a : AssetR) (entries : List CklEntry) : DB :=
  { db with cklChecks := db.cklChecks.map (fun ck =>
      if ck.assetId == a.id then
        match entries.find? (fun en => en.vuln == ck.stigCheckId) with
        | some en =>
            { ck with status := cklToStatus en.status
                      findingDetails := en.findingDetails
                      comments := en.comments }
        | none => ck
      else ck) }

/-! ### Concrete sample data used by the witness theorems -/

def wCCI : CCIr :=
  { cci := 5, isImport := true, importCompliance := "Compliant",
    importDateTested := "01-Jan-2020", importTestedBy := "tester",
    importTestResults := "previously passed", definition := "sample definition" }

def wCCI2 : CCIr :=
  { cci := 7, isImport := true, importCompliance := "Non-Compliant",
    importDateTested := "02-Jan-2020", importTestedBy := "tester",
    importTestResults := "previously failed", definition := "second definition" }

def wCheckOpen : CKLCheckr :=
  { cci := wCCI, status := Status.Open, assetId := 1, findingDetails := "finding" }

def wCheckNaf : CKLCheckr :=
  { cci := wCCI, status := Status.NotAFinding, assetId := 1, findingDetails := "" }

def wFamily : FamilyR := { acronym := "AC", description := "Access Control" }

def wStig : StigR :=
  { id := 3, title := "Sample STIG", description := "", release := "R1",
    version := 2, benchmarkId := "B-1", fileName := "s.xml" }

def wStigCheck : StigCheckR :=
  { id := 11, stigId := 3, cciId := 1, rule := "SV-1r1_rule", vulnNum := "V-1", severity := 2 }

def wStigCheck2 : StigCheckR :=
  { id := 12, stigId := 3, cciId := 1, rule := "SV-2r1_rule", vulnNum := "V-2", severity := 1 }

def wAsset : AssetR :=
  { id := 1, hostName := "host", hostIP := "127.0.0.1",
    hostMAC := "00:00:00:00:00", hostFQDN := "localhost" }

def wDbCCI : DbCCI := { id := 1, controlId := 1, cci := 366, definition := "d" }

def wDB : DB :=
  { families := [wFamily]
    ccis := [wDbCCI]
    stigs := [wStig]
    stigChecks := [wStigCheck, wStigCheck2]
    assets := [wAsset]
    assetStigs := [(1, 3)]
    cklChecks := [{ assetId := 1, stigCheckId := 11, status := Status.Open,
                    findingDetails := "fd", comments := "c", severityOverride := none,
                    severityJustification := "" },
                  { assetId := 1, stigCheckId := 12, status := Status.NotAFinding,
                    findingDetails := "", comments := "", severityOverride := some 1,
                    severityJustification := "j" }] }

/-- The sample store with no STIG attached to any Asset yet. -/
def wDBdetached : DB := { wDB with assetStigs := [] }

def wBadFile : List XmlEvent :=
  [XmlEvent.cciItem (some ('C' :: 'C' :: 'I' :: '-' :: ['0', '0', '0', '0', '0', '1'])),
   XmlEvent.errorTok,
   XmlEvent.referenceEl (some ['4']) (some ['A', 'C', '-', '2'])]

def wGoodFile : List XmlEvent :=
  [XmlEvent.cciItem (some ('C' :: 'C' :: 'I' :: '-' :: ['0', '0', '0', '0', '0', '2'])),
   XmlEvent.definitionEl ['d'],
   XmlEvent.referenceEl (some ['4']) (some ['A', 'C', '-', '2'])]

/-! ## Helper lemmas on the string primitives -/

theorem qContains_iff (s : List Char) (c : Char) : qContains s c = true ↔ c ∈ s := by
  simp [qContains, List.any_eq_true, beq_iff_eq]

theorem qContains_eq_false {s : List Char} {c : Char} (h : c ∉ s) : qContains s c = false := by
  cases h' : qContains s c with
  | false => rfl
  | true => exact absurd ((qContains_iff s c).1 h') h

theorem qFind_not_mem {c : Char} : ∀ {l : List Char}, c ∉ l → qFind c l = none
  | [], _ => rfl
  | x :: xs, h => by
      have hx : ¬ x = c := fun hxc => h (hxc ▸ List.mem_cons_self x xs)
      simp [qFind, hx, qFind_not_mem (fun hm => h (List.mem_cons_of_mem x hm))]

theorem qFind_append {c : Char} : ∀ (l1 l2 : List Char), c ∉ l1 →
    qFind c (l1 ++ l2) = (qFind c l2).map (· + l1.length)
  | [], l2, _ => by cases h : qFind c l2 <;> simp [h]
  | x :: xs, l2, h => by
      have hx : ¬ x = c := fun hxc => h (hxc ▸ List.mem_cons_self x xs)
      have ih := qFind_append xs l2 (fun hm => h (List.mem_cons_of_mem x hm))
      simp only [List.cons_append, qFind, hx, if_false, List.append_eq, ih]
      cases qFind c l2 with
      | none => rfl
      | some n =>
          simp [List.length_cons, Nat.add_assoc]

theorem qIndexOf_append_cons (l1 l2 : List Char) (c : Char) (h : c ∉ l1) :
    qIndexOf (l1 ++ c :: l2) c = (l1.length : Int) := by
  unfold qIndexOf
  rw [qFind_append l1 (c :: l2) h]
  simp [qFind]

theorem qIndexOf_not_mem {s : List Char} {c : Char} (h : c ∉ s) : qIndexOf s c = -1 := by
  unfold qIndexOf
  rw [qFind_not_mem h]

theorem takeWhile_append_all (p : Char → Bool) :
    ∀ (l1 l2 : List Char), (∀ c ∈ l1, p c = true) →
      (l1 ++ l2).takeWhile p = l1 ++ l2.takeWhile p
  | [], _, _ => by simp
  | x :: xs, l2, h => by
      have hx := h x (List.mem_cons_self x xs)
      have ih := takeWhile_append_all p xs l2 (fun c hc => h c (List.mem_cons_of_mem x hc))
      simp [List.takeWhile_cons, hx, ih]

theorem dropWhile_append_all (p : Char → Bool) :
    ∀ (l1 l2 : List Char), (∀ c ∈ l1, p c = true) →
      (l1 ++ l2).dropWhile p = l2.dropWhile p
  | [], _, _ => by simp
  | x :: xs, l2, h => by
      have hx := h x (List.mem_cons_self x xs)
      have ih := dropWhile_append_all p xs l2 (fun c hc => h c (List.mem_cons_of_mem x hc))
      simp [List.dropWhile_cons, hx, ih]

theorem takeWhile_all (p : Char → Bool) (l : List Char) (h : ∀ c ∈ l, p c = true) :
    l.takeWhile p = l := by
  have := takeWhile_append_all p l [] h
  simpa using this

theorem dropWhile_all (p : Char → Bool) (l : List Char) (h : ∀ c ∈ l, p c = true) :
    l.dropWhile p = [] := by
  have := dropWhile_append_all p l [] h
  simpa using this

/-! ## Helper lemmas on decimal digits -/

theorem digitChar_isDigit {d : Nat} (h : d < 10) : (Nat.digitChar d).isDigit = true := by
  interval_cases d <;> decide

theorem charToDigit_digitChar {d : Nat} (h : d < 10) : charToDigit (Nat.digitChar d) = d := by
  interval_cases d <;> decide

theorem digitsToNat_append (l : List Char) (c : Char) :
    digitsToNat (l ++ [c]) = digitsToNat l * 10 + charToDigit c := by
  simp [digitsToNat, List.foldl_append]

theorem natToCharsCore_digits :
    ∀ fuel n, ∀ c ∈ natToCharsCore fuel n, c.isDigit = true := by
  intro fuel
  induction fuel with
  | zero => intro n c hc; simp [natToCharsCore] at hc
  | succ f ih =>
      intro n c hc
      by_cases h : n = 0
      · simp [natToCharsCore, h] at hc
      · simp only [natToCharsCore, h, if_false, List.mem_append, List.mem_singleton] at hc
        rcases hc with hc | hc
        · exact ih _ c hc
        · rw [hc]; exact digitChar_isDigit (Nat.mod_lt _ (by norm_num))

theorem natToCharsCore_val : ∀ fuel n, n ≤ fuel → digitsToNat (natToCharsCore fuel n) = n := by
  intro fuel
  induction fuel with
  | zero =>
      intro n h
      interval_cases n
      simp [natToCharsCore, digitsToNat]
  | succ f ih =>
      intro n h
      by_cases h0 : n = 0
      · simp [natToCharsCore, h0, digitsToNat]
      · have hdiv : n / 10 ≤ f := by
          have : n / 10 < n := Nat.div_lt_self (Nat.pos_of_ne_zero h0) (by norm_num)
          omega
        simp only [natToCharsCore, h0, if_false]
        rw [digitsToNat_append, ih _ hdiv,
          charToDigit_digitChar (Nat.mod_lt _ (by norm_num))]
        omega

theorem natToChars_ne_nil (n : Nat) : natToChars n ≠ [] := by
  by_cases h : n = 0
  · simp [natToChars, h]
  · obtain ⟨f, rfl⟩ := Nat.exists_eq_succ_of_ne_zero h
    simp [natToChars, natToCharsCore]

theorem natToChars_digits (n : Nat) : ∀ c ∈ natToChars n, c.isDigit = true := by
  intro c hc
  by_cases h : n = 0
  · simp [natToChars, h] at hc
    rw [hc]; decide
  · simp only [natToChars, h, if_false] at hc
    exact natToCharsCore_digits n n c hc

theorem digitsToNat_natToChars (n : Nat) : digitsToNat (natToChars n) = n := by
  by_cases h : n = 0
  · subst h; decide
  · simp only [natToChars, h, if_false]
    exact natToCharsCore_val n n le_rfl

/-! ## Character-class facts used by the control-id parse -/

theorem not_mem_of_all_isAlpha {l : List Char} (h : ∀ c ∈ l, c.isAlpha = true) :
    ' ' ∉ l ∧ '(' ∉ l ∧ ')' ∉ l ∧ '.' ∉ l ∧ '-' ∉ l := by
  refine ⟨?_, ?_, ?_, ?_, ?_⟩ <;> intro hm <;> exact absurd (h _ hm) (by decide)

theorem not_mem_of_all_isDigit {l : List Char} (h : ∀ c ∈ l, c.isDigit = true) :
    ' ' ∉ l ∧ '(' ∉ l ∧ ')' ∉ l ∧ '.' ∉ l ∧ '-' ∉ l := by
  refine ⟨?_, ?_, ?_, ?_, ?_⟩ <;> intro hm <;> exact absurd (h _ hm) (by decide)

/-! ## Evaluation lemmas for the extraction of control names -/

theorem qLeft_nat (s : List Char) (n : Nat) : qLeft s (n : Int) = s.take n := by
  unfold qLeft
  rw [if_neg (by omega)]
  have h : ((n : Int)).toNat = n := by omega
  rw [h]

theorem qMid_nat (s : List Char) (pos len : Nat) :
    qMid s (pos : Int) (len : Int) = (s.drop pos).take len := by
  have h1 : ((pos : Int)).toNat = pos := by omega
  have h2 : ((len : Int)).toNat = len := by omega
  unfold qMid
  rw [h1, h2]

theorem qIndexOfFrom_nat (s : List Char) (c : Char) (f : Nat) :
    qIndexOfFrom s c (f : Int) =
      match qFind c (s.drop f) with
      | none => -1
      | some n => ((n + f : Nat) : Int) := by
  unfold qIndexOfFrom
  have h1 : ¬((f : Int) < 0) := by omega
  have h2 : ((f : Int)).toNat = f := by omega
  simp only [h1, if_false, h2]

theorem not_mem_famdash {x : Char} {fam t : List Char}
    (hfam : x ∉ fam) (hdash : x ≠ '-') (ht : x ∉ t) : x ∉ fam ++ '-' :: t := by
  intro hm
  rcases List.mem_append.1 hm with h | h
  · exact hfam h
  · rcases List.mem_cons.1 h with h | h
    · exact hdash h
    · exact ht h

theorem indexToControl_no_enh (fam ds : List Char)
    (hfam : ∀ c ∈ fam, c.isAlpha = true) (hds : ∀ c ∈ ds, c.isDigit = true) :
    indexToControl (fam ++ '-' :: ds) = fam ++ '-' :: ds := by
  obtain ⟨hf1, hf2, hf3, hf4, hf5⟩ := not_mem_of_all_isAlpha hfam
  obtain ⟨hd1, hd2, hd3, hd4, hd5⟩ := not_mem_of_all_isDigit hds
  have hsp : ' ' ∉ fam ++ '-' :: ds := not_mem_famdash hf1 (by decide) hd1
  have hdot : '.' ∉ fam ++ '-' :: ds := not_mem_famdash hf4 (by decide) hd4
  have hpar : '(' ∉ fam ++ '-' :: ds := not_mem_famdash hf2 (by decide) hd2
  unfold indexToControl
  simp [qContains_eq_false hsp, qContains_eq_false hdot, qContains_eq_false hpar]

theorem indexToControl_enh (fam ds es : List Char)
    (hfam : ∀ c ∈ fam, c.isAlpha = true) (hds : ∀ c ∈ ds, c.isDigit = true)
    (hes : ∀ c ∈ es, c.isDigit = true) :
    indexToControl (fam ++ '-' :: (ds ++ ' ' :: '(' :: (es ++ [')']))) =
      (fam ++ '-' :: ds) ++ '(' :: (es ++ [')']) := by
  obtain ⟨hf1, hf2, hf3, hf4, hf5⟩ := not_mem_of_all_isAlpha hfam
  obtain ⟨hd1, hd2, hd3, hd4, hd5⟩ := not_mem_of_all_isDigit hds
  obtain ⟨he1, he2, he3, he4, he5⟩ := not_mem_of_all_isDigit hes
  have hshape : fam ++ '-' :: (ds ++ ' ' :: '(' :: (es ++ [')'])) =
      (fam ++ '-' :: ds) ++ ' ' :: ('(' :: (es ++ [')'])) := by simp
  rw [hshape]
  have hspA : ' ' ∉ fam ++ '-' :: ds := not_mem_famdash hf1 (by decide) hd1
  have hdotA : '.' ∉ fam ++ '-' :: ds := not_mem_famdash hf4 (by decide) hd4
  -- the first space sits right after the truncated control name
  have h1 : qIndexOf ((fam ++ '-' :: ds) ++ ' ' :: ('(' :: (es ++ [')']))) ' ' =
      ((fam ++ '-' :: ds).length : Int) :=
    qIndexOf_append_cons _ _ ' ' hspA
  have hc1 : qContains ((fam ++ '-' :: ds) ++ ' ' :: ('(' :: (es ++ [')']))) ' ' = true :=
    (qContains_iff _ _).2 (by simp)
  have hc2 : qContains (fam ++ '-' :: ds) '.' = false := qContains_eq_false hdotA
  have hc3 : qContains ((fam ++ '-' :: ds) ++ ' ' :: ('(' :: (es ++ [')']))) '(' = true :=
    (qContains_iff _ _).2 (by simp)
  -- there is no second space
  have hnosp2 : ' ' ∉ '(' :: (es ++ [')']) := by
    intro hm
    rcases List.mem_cons.1 hm with h | h
    · exact absurd h (by decide)
    · rcases List.mem_append.1 h with h | h
      · exact he1 h
      · rcases List.mem_singleton.1 h with h
        exact absurd h (by decide)
  have hcast : ((fam ++ '-' :: ds).length : Int) + 1 =
      (((fam ++ '-' :: ds).length + 1 : Nat) : Int) := by omega
  have hdrop1 : ((fam ++ '-' :: ds) ++ ' ' :: ('(' :: (es ++ [')']))).drop
      ((fam ++ '-' :: ds).length + 1) = '(' :: (es ++ [')']) := by
    have hsh : (fam ++ '-' :: ds) ++ ' ' :: ('(' :: (es ++ [')'])) =
        ((fam ++ '-' :: ds) ++ [' ']) ++ '(' :: (es ++ [')']) := by simp
    rw [hsh]
    have hlen : (fam ++ '-' :: ds).length + 1 = ((fam ++ '-' :: ds) ++ [' ']).length := by
      simp
      omega
    rw [hlen, List.drop_left]
  have hfrom : qIndexOfFrom ((fam ++ '-' :: ds) ++ ' ' :: ('(' :: (es ++ [')']))) ' '
      (((fam ++ '-' :: ds).length : Int) + 1) = -1 := by
    rw [hcast, qIndexOfFrom_nat, hdrop1, qFind_not_mem hnosp2]
  -- position of the opening parenthesis
  have hparpre : '(' ∉ (fam ++ '-' :: ds) ++ [' '] := by
    intro hm
    rcases List.mem_append.1 hm with h | h
    · exact not_mem_famdash hf2 (by decide) hd2 h
    · rcases List.mem_singleton.1 h with h
      exact absurd h (by decide)
  have h2 : qIndexOf ((fam ++ '-' :: ds) ++ ' ' :: ('(' :: (es ++ [')']))) '(' =
      (((fam ++ '-' :: ds).length + 1 : Nat) : Int) := by
    have hsh : (fam ++ '-' :: ds) ++ ' ' :: ('(' :: (es ++ [')'])) =
        ((fam ++ '-' :: ds) ++ [' ']) ++ '(' :: (es ++ [')']) := by simp
    rw [hsh, qIndexOf_append_cons _ _ '(' hparpre]
    push_cast
    simp
    omega
  -- position of the closing parenthesis
  have hrparpre : ')' ∉ (fam ++ '-' :: ds) ++ ' ' :: '(' :: es := by
    intro hm
    rcases List.mem_append.1 hm with h | h
    · exact not_mem_famdash hf3 (by decide) hd3 h
    · rcases List.mem_cons.1 h with h | h
      · exact absurd h (by decide)
      · rcases List.mem_cons.1 h with h | h
        · exact absurd h (by decide)
        · exact he3 h
  have h3 : qIndexOf ((fam ++ '-' :: ds) ++ ' ' :: ('(' :: (es ++ [')']))) ')' =
      (((fam ++ '-' :: ds).length + 1 + 1 + es.length : Nat) : Int) := by
    have hsh : (fam ++ '-' :: ds) ++ ' ' :: ('(' :: (es ++ [')'])) =
        ((fam ++ '-' :: ds) ++ ' ' :: '(' :: es) ++ ')' :: [] := by simp
    rw [hsh, qIndexOf_append_cons _ _ ')' hrparpre]
    push_cast
    simp
    omega
  have hlen3 : ('(' :: (es ++ [')'])).length = es.length + 2 := by simp
  have hlen2 : (((fam ++ '-' :: ds).length + 1 + 1 + es.length : Nat) : Int) -
      (((fam ++ '-' :: ds).length + 1 : Nat) : Int) + 1 = ((es.length + 2 : Nat) : Int) := by
    push_cast
    omega
  have hq : qMid ((fam ++ '-' :: ds) ++ ' ' :: ('(' :: (es ++ [')'])))
      (((fam ++ '-' :: ds).length + 1 : Nat) : Int)
      ((((fam ++ '-' :: ds).length + 1 + 1 + es.length : Nat) : Int) -
        (((fam ++ '-' :: ds).length + 1 : Nat) : Int) + 1) = '(' :: (es ++ [')']) := by
    rw [hlen2, qMid_nat, hdrop1, ← hlen3, List.take_length]
  simp only [indexToControl, h1, hc1, hc2, hc3, hfrom, h2, h3]
  simp only [if_true, ite_true]
  rw [qLeft_nat, List.take_left]
  simp only [hc2, Bool.false_eq_true, if_false, ite_false]
  rw [if_pos (Or.inl (by norm_num)), hq]

/-! ## Evaluation lemmas for the spec-modelled control-id parse -/

theorem takeWhile_alpha_famdash (fam t : List Char) (hfam : ∀ c ∈ fam, c.isAlpha = true) :
    (fam ++ '-' :: t).takeWhile (fun c => c.isAlpha) = fam := by
  rw [takeWhile_append_all _ fam ('-' :: t) hfam]
  simp [List.takeWhile_cons, show ('-').isAlpha = false from by decide]

theorem specAfterDash_famdash (fam t : List Char) (hfam : ∀ c ∈ fam, c.isAlpha = true) :
    specAfterDash (fam ++ '-' :: t) = t := by
  unfold specAfterDash
  rw [dropWhile_append_all _ fam ('-' :: t) hfam]
  simp [List.dropWhile_cons, show ('-').isAlpha = false from by decide]

theorem specParseControl_no_enh (fam ds : List Char)
    (hfam : ∀ c ∈ fam, c.isAlpha = true) (hds : ∀ c ∈ ds, c.isDigit = true) :
    specParseControl (fam ++ '-' :: ds) = (fam, digitsToNat ds, none) := by
  unfold specParseControl
  rw [takeWhile_alpha_famdash fam ds hfam, specAfterDash_famdash fam ds hfam,
    takeWhile_all _ ds hds, dropWhile_all _ ds hds]
  rfl

theorem specParseControl_enh (fam ds es : List Char)
    (hfam : ∀ c ∈ fam, c.isAlpha = true) (hds : ∀ c ∈ ds, c.isDigit = true)
    (hes : ∀ c ∈ es, c.isDigit = true) (hne : es ≠ []) :
    specParseControl (fam ++ '-' :: (ds ++ '(' :: (es ++ [')']))) =
      (fam, digitsToNat ds, some (digitsToNat es)) := by
  unfold specParseControl
  rw [takeWhile_alpha_famdash fam _ hfam, specAfterDash_famdash fam _ hfam,
    takeWhile_append_all _ ds _ hds, dropWhile_append_all _ ds _ hds]
  simp only [List.takeWhile_cons, List.dropWhile_cons,
    show ('(').isDigit = false from by decide, if_false, List.append_nil,
    Bool.false_eq_true, ite_false]
  unfold specEnh
  simp only [List.dropWhile_cons, show (('(') == ' ') = false from by decide,
    if_false, Bool.false_eq_true, ite_false]
  rw [takeWhile_append_all _ es _ hes, dropWhile_append_all _ es _ hes]
  simp [List.takeWhile_cons, List.dropWhile_cons,
    show (')').isDigit = false from by decide, hne]

/-- C2: for every reference index string consisting of family letters, a
number, and an optional parenthesized enhancement, the CCI import's
textual control-id parse recovers the control's family, number, and
enhancement. -/
theorem control_id_parse_roundtrip (fam : List Char) (n : Nat) (enh : Option Nat)
    (halpha : ∀ c ∈ fam, c.isAlpha = true) :
    specParseControl (indexToControl (renderIndex fam n enh)) = (fam, n, enh) := by
  cases enh with
  | none =>
      have hr : renderIndex fam n none = fam ++ '-' :: natToChars n := by
        simp [renderIndex]
      rw [hr, indexToControl_no_enh fam _ halpha (natToChars_digits n),
        specParseControl_no_enh fam _ halpha (natToChars_digits n),
        digitsToNat_natToChars]
  | some e =>
      have hr : renderIndex fam n (some e) =
          fam ++ '-' :: (natToChars n ++ ' ' :: '(' :: (natToChars e ++ [')'])) := by
        simp [renderIndex]
      rw [hr, indexToControl_enh fam _ _ halpha (natToChars_digits n) (natToChars_digits e)]
      have hsh : (fam ++ '-' :: natToChars n) ++ '(' :: (natToChars e ++ [')']) =
          fam ++ '-' :: (natToChars n ++ '(' :: (natToChars e ++ [')'])) := by
        simp
      rw [hsh, specParseControl_enh fam _ _ halpha (natToChars_digits n)
          (natToChars_digits e) (natToChars_ne_nil e),
        digitsToNat_natToChars, digitsToNat_natToChars]

/-- Witness for C2 at the concrete input of the spec: `"AC-2 (1)"`
parses to family `"AC"`, number 2, enhancement 1. -/
theorem control_id_parse_roundtrip_witness :
    specParseControl (indexToControl (renderIndex ['A', 'C'] 2 (some 1))) =
      (['A', 'C'], 2, some 1) :=
  control_id_parse_roundtrip ['A', 'C'] 2 (some 1) (by decide)

/-! ## C9: row production in the streaming CCI parse loop -/

/-- C9: a `reference` element produces a CCI row only if its `version`
and `index` attributes are present and non-empty with `version` equal
to `"4"` (and a `cci_item` id has been seen); the row's number is the
integer parsed from the last six characters of the enclosing
`cci_item`'s id; no other event appends a row; and a `cci_item` start
element carrying an id replaces the tracked id. -/
theorem cci_reference_row_conditions (st : ParseSt) (e : XmlEvent) :
    (∀ v ix, e = XmlEvent.referenceEl (some v) (some ix) →
        st.cci ≠ [] → v ≠ [] → ix ≠ [] → v = ['4'] →
        (stepParse st e).toAdd = st.toAdd ++
          [{ cciNum := qToInt (qRight st.cci 6),
             controlName := indexToControl ix,
             definition := st.definition }])
    ∧ ((∀ v ix, e = XmlEvent.referenceEl (some v) (some ix) →
          ¬ (st.cci ≠ [] ∧ v ≠ [] ∧ ix ≠ [] ∧ v = ['4'])) →
        (stepParse st e).toAdd = st.toAdd)
    ∧ (∀ v, (stepParse st (XmlEvent.cciItem (some v))).cci = v) := by
  refine ⟨?_, ?_, ?_⟩
  · intro v ix he hcci hv hix h4
    subst he
    simp only [stepParse]
    rw [if_pos hcci, if_pos ⟨hv, hix, h4⟩]
  · intro hnot
    cases e with
    | cciItem idAttr => cases idAttr <;> rfl
    | definitionEl t => rfl
    | referenceEl ver idx =>
        cases ver with
        | none => rfl
        | some v =>
            cases idx with
            | none => rfl
            | some ix =>
                have h := hnot v ix rfl
                simp only [stepParse]
                by_cases hcci : st.cci ≠ []
                · rw [if_pos hcci]
                  by_cases hcond : v ≠ [] ∧ ix ≠ [] ∧ v = ['4']
                  · exact absurd ⟨hcci, hcond⟩ h
                  · rw [if_neg hcond]
                · rw [if_neg hcci]
    | otherEl => rfl
    | errorTok => rfl
  · intro v
    rfl

/-- Witness for C9: a qualifying Rev-4 reference with the tracked
`cci_item` id `"CCI-000001"` appends exactly the row whose number is
parsed from the id's last six characters. -/
theorem cci_reference_row_conditions_witness :
    (stepParse
        { cci := 'C' :: 'C' :: 'I' :: '-' :: ['0', '0', '0', '0', '0', '1'],
          definition := ['d'], toAdd := [] }
        (XmlEvent.referenceEl (some ['4']) (some ['A', 'C', '-', '2']))).toAdd =
      [] ++
        [{ cciNum := qToInt (qRight ('C' :: 'C' :: 'I' :: '-' :: ['0', '0', '0', '0', '0', '1']) 6),
           controlName := indexToControl ['A', 'C', '-', '2'],
           definition := ['d'] }] :=
  (cci_reference_row_conditions
      { cci := 'C' :: 'C' :: 'I' :: '-' :: ['0', '0', '0', '0', '0', '1'],
        definition := ['d'], toAdd := [] }
      (XmlEvent.referenceEl (some ['4']) (some ['A', 'C', '-', '2']))).1
    ['4'] ['A', 'C', '-', '2'] rfl (by decide) (by decide) (by decide) rfl

/-! ## C8: behaviour of the import on a parse error -/

/-- C8 counterexample: the claim predicts that after a parse failure
only the offending element is skipped and the rest of the document is
still processed — that is, that parsing a document equals parsing the
document with the error removed.  On `wBadFile` the qualifying
reference that follows the error produces no row, unlike the
error-free rest of the document. -/
theorem parse_error_skip_counterexample :
    (runParse initParseSt wBadFile).toAdd ≠
      (runParse initParseSt (wBadFile.filter (fun e => e != XmlEvent.errorTok))).toAdd := by
  decide

/-- Auxiliary: the outer per-file loop accumulates rows on top of any
prefix already collected. -/
theorem parseAllFiles_acc (files : List (List XmlEvent)) :
    ∀ acc, files.foldl (fun acc evs => acc ++ (runParse initParseSt evs).toAdd) acc =
      acc ++ parseAllFiles files := by
  induction files with
  | nil => intro acc; simp [parseAllFiles]
  | cons f fs ih =>
      intro acc
      simp only [List.foldl_cons, parseAllFiles, List.nil_append]
      rw [ih, ih ((runParse initParseSt f).toAdd)]
      simp [List.append_assoc]

/-- C8 (amended): a parse error stops the processing of the remainder
of that document — the elements read before the error are retained —
and the import as a whole is not aborted: the documents of the archive
are parsed independently, so the remaining documents still contribute
their rows. -/
theorem parse_error_stops_document_import_continues :
    (∀ (st : ParseSt) (pre rest : List XmlEvent), XmlEvent.errorTok ∉ pre →
        runParse st (pre ++ XmlEvent.errorTok :: rest) = runParse st pre)
    ∧ (∀ files1 files2 : List (List XmlEvent),
        parseAllFiles (files1 ++ files2) = parseAllFiles files1 ++ parseAllFiles files2) := by
  constructor
  · intro st pre
    induction pre generalizing st with
    | nil => intro rest _; rfl
    | cons e pre ih =>
        intro rest hmem
        have he : ¬ e = XmlEvent.errorTok := fun h =>
          hmem (h ▸ List.mem_cons_self e pre)
        simp only [List.cons_append, runParse, if_neg he]
        exact ih _ _ (fun h => hmem (List.mem_cons_of_mem e h))
  · intro files1 files2
    unfold parseAllFiles
    rw [List.foldl_append]
    rw [parseAllFiles_acc files2]
    rfl

/-- Witness for C8 (amended): on a concrete two-file archive with an
error in the first file, the first file's rows stop at the error and
the second file is still parsed. -/
theorem parse_error_stops_witness :
    runParse initParseSt
        ([XmlEvent.cciItem (some ['0', '1'])] ++ XmlEvent.errorTok :: [XmlEvent.otherEl]) =
      runParse initParseSt [XmlEvent.cciItem (some ['0', '1'])]
    ∧ parseAllFiles ([wBadFile] ++ [wGoodFile]) =
        parseAllFiles [wBadFile] ++ parseAllFiles [wGoodFile] :=
  ⟨parse_error_stops_document_import_continues.1 initParseSt
      [XmlEvent.cciItem (some ['0', '1'])] [XmlEvent.otherEl] (by decide),
   parse_error_stops_document_import_continues.2 [wBadFile] [wGoodFile]⟩

/-! ## The eMASS report: map lemmas -/

theorem mapContainsNum_iff (m : CCIMap) (k : Nat) :
    mapContainsNum m k = true ↔ ∃ p ∈ m, p.1.cci = k := by
  simp [mapContainsNum, List.any_eq_true, beq_iff_eq]

theorem mapAppendNum_keys (m : CCIMap) (k : Nat) (cc : CKLCheckr) :
    (mapAppendNum m k cc).map (fun p => p.1) = m.map (fun p => p.1) := by
  induction m with
  | nil => rfl
  | cons q t ih =>
      simp only [mapAppendNum, List.map_cons] at *
      by_cases h : (q.1.cci == k) = true
      · simp only [h, if_true, ite_true]
        rw [ih]
      · simp only [h, if_false, Bool.false_eq_true, ite_false]
        rw [ih]

theorem mapContainsNum_eq_keys (m : CCIMap) (k : Nat) :
    mapContainsNum m k = (m.map (fun p => p.1)).any (fun c => c.cci == k) := by
  induction m with
  | nil => rfl
  | cons q t ih => simp only [mapContainsNum, List.any_cons, List.map_cons] at *; rw [ih]

theorem mapContainsNum_mapAppendNum (m : CCIMap) (k' k : Nat) (cc : CKLCheckr) :
    mapContainsNum (mapAppendNum m k' cc) k = mapContainsNum m k := by
  rw [mapContainsNum_eq_keys, mapContainsNum_eq_keys, mapAppendNum_keys]

theorem mapContainsNum_append_single_iff (m : CCIMap) (cr : CCIr) (cc : CKLCheckr) (k : Nat) :
    mapContainsNum (m ++ [(cr, [cc])]) k = true ↔
      (mapContainsNum m k = true ∨ cr.cci = k) := by
  simp [mapContainsNum, List.any_append]

theorem mapContainsNum_remove_iff (m : CCIMap) (k' k : Nat) :
    mapContainsNum (mapRemoveNum m k') k = true ↔ (mapContainsNum m k = true ∧ k ≠ k') := by
  rw [mapContainsNum_iff, mapContainsNum_iff]
  constructor
  · rintro ⟨p, hp, hk⟩
    rw [mapRemoveNum, List.mem_filter] at hp
    refine ⟨⟨p, hp.1, hk⟩, ?_⟩
    rw [← hk]
    exact bne_iff_ne.1 hp.2
  · rintro ⟨⟨p, hp, hk⟩, hne⟩
    refine ⟨p, ?_, hk⟩
    rw [mapRemoveNum, List.mem_filter]
    exact ⟨hp, bne_iff_ne.2 (by rw [hk]; exact hne)⟩

theorem exists_mem_cons_split{α : Type} (a : α) (l : List α) (P : α → Prop) :
    (∃ x ∈ a :: l, P x) ↔ (P a ∨ ∃ x ∈ l, P x) := by
  simp [List.mem_cons, or_and_right, exists_or]

/-- The failed map of the classification loop contains a CCI number
exactly when it was contained initially or some `Open` check maps to it. -/
theorem classify_failed_aux (l : List CKLCheckr) :
    ∀ (f p : CCIMap) (k : Nat),
      mapContainsNum (l.foldl classifyStep (f, p)).1 k = true ↔
        (mapContainsNum f k = true ∨ ∃ cc ∈ l, cc.cci.cci = k ∧ cc.status = Status.Open) := by
  induction l with
  | nil => intro f p k; simp
  | cons c t ih =>
      intro f p k
      rw [List.foldl_cons,
        exists_mem_cons_split c t (fun cc => cc.cci.cci = k ∧ cc.status = Status.Open)]
      cases hs : c.status with
      | Open =>
          simp only [classifyStep, hs]
          rw [ih]
          simp only [show (Status.Open = Status.Open) ↔ True from by simp, and_true]
          by_cases hf : mapContainsNum f c.cci.cci = true
          · rw [if_pos hf, mapContainsNum_mapAppendNum]
            by_cases hk : c.cci.cci = k
            · subst hk
              generalize (∃ cc ∈ t, cc.cci.cci = c.cci.cci ∧ cc.status = Status.Open) = A
              tauto
            · generalize (∃ cc ∈ t, cc.cci.cci = k ∧ cc.status = Status.Open) = A
              tauto
          · rw [if_neg hf, mapContainsNum_append_single_iff]
            by_cases hk : c.cci.cci = k
            · subst hk
              generalize (∃ cc ∈ t, cc.cci.cci = c.cci.cci ∧ cc.status = Status.Open) = A
              tauto
            · generalize (∃ cc ∈ t, cc.cci.cci = k ∧ cc.status = Status.Open) = A
              tauto
      | NotAFinding =>
          simp only [classifyStep, hs]
          simp only [show (Status.NotAFinding = Status.Open) ↔ False from by simp, and_false,
            false_or]
          by_cases hf : mapContainsNum f c.cci.cci = true
          · rw [if_pos hf, ih]
          · rw [if_neg hf]
            rw [ih]
      | NotReviewed =>
          simp only [classifyStep, hs]
          simp only [show (Status.NotReviewed = Status.Open) ↔ False from by simp, and_false,
            false_or]
          rw [ih]
      | NotApplicable =>
          simp only [classifyStep, hs]
          simp only [show (Status.NotApplicable = Status.Open) ↔ False from by simp, and_false,
            false_or]
          rw [ih]

/-- The passed map of the classification loop contains a CCI number
exactly when no `Open` check maps to it and either it was contained
initially or some `NotAFinding` check maps to it while the failed map
never did. -/
theorem classify_passed_aux (l : List CKLCheckr) :
    ∀ (f p : CCIMap) (k : Nat),
      mapContainsNum (l.foldl classifyStep (f, p)).2 k = true ↔
        ((¬ ∃ cc ∈ l, cc.cci.cci = k ∧ cc.status = Status.Open) ∧
          (mapContainsNum p k = true ∨
            ((∃ cc ∈ l, cc.cci.cci = k ∧ cc.status = Status.NotAFinding) ∧
              ¬ mapContainsNum f k = true))) := by
  induction l with
  | nil => intro f p k; simp
  | cons c t ih =>
      intro f p k
      rw [List.foldl_cons,
        exists_mem_cons_split c t (fun cc => cc.cci.cci = k ∧ cc.status = Status.Open),
        exists_mem_cons_split c t (fun cc => cc.cci.cci = k ∧ cc.status = Status.NotAFinding)]
      cases hs : c.status with
      | Open =>
          simp only [classifyStep, hs]
          rw [ih]
          simp only [show (Status.Open = Status.Open) ↔ True from by simp, and_true,
            show (Status.Open = Status.NotAFinding) ↔ False from by simp, and_false, false_or]
          have hfnew : ∀ cc : CKLCheckr,
              mapContainsNum
                  (if mapContainsNum f c.cci.cci = true then mapAppendNum f c.cci.cci cc
                   else f ++ [(c.cci, [cc])]) k = true ↔
                (mapContainsNum f k = true ∨ c.cci.cci = k) := by
            intro cc
            by_cases hf : mapContainsNum f c.cci.cci = true
            · rw [if_pos hf, mapContainsNum_mapAppendNum]
              by_cases hk : c.cci.cci = k
              · subst hk; tauto
              · tauto
            · rw [if_neg hf, mapContainsNum_append_single_iff]
          rw [hfnew c]
          by_cases hp : mapContainsNum p c.cci.cci = true
          · rw [if_pos hp, mapContainsNum_remove_iff]
            by_cases hk : c.cci.cci = k
            · subst hk
              generalize (∃ cc ∈ t, cc.cci.cci = c.cci.cci ∧ cc.status = Status.Open) = A
              generalize (∃ cc ∈ t, cc.cci.cci = c.cci.cci ∧ cc.status = Status.NotAFinding) = B
              tauto
            · have hk2 : ¬ k = c.cci.cci := fun h => hk h.symm
              generalize (∃ cc ∈ t, cc.cci.cci = k ∧ cc.status = Status.Open) = A
              generalize (∃ cc ∈ t, cc.cci.cci = k ∧ cc.status = Status.NotAFinding) = B
              tauto
          · rw [if_neg hp]
            by_cases hk : c.cci.cci = k
            · subst hk
              generalize (∃ cc ∈ t, cc.cci.cci = c.cci.cci ∧ cc.status = Status.Open) = A
              generalize (∃ cc ∈ t, cc.cci.cci = c.cci.cci ∧ cc.status = Status.NotAFinding) = B
              tauto
            · generalize (∃ cc ∈ t, cc.cci.cci = k ∧ cc.status = Status.Open) = A
              generalize (∃ cc ∈ t, cc.cci.cci = k ∧ cc.status = Status.NotAFinding) = B
              tauto
      | NotAFinding =>
          simp only [classifyStep, hs]
          simp only [show (Status.NotAFinding = Status.Open) ↔ False from by simp, and_false,
            false_or, show (Status.NotAFinding = Status.NotAFinding) ↔ True from by simp,
            and_true]
          by_cases hf : mapContainsNum f c.cci.cci = true
          · rw [if_pos hf, ih]
            by_cases hk : c.cci.cci = k
            · subst hk
              generalize (∃ cc ∈ t, cc.cci.cci = c.cci.cci ∧ cc.status = Status.Open) = A
              generalize (∃ cc ∈ t, cc.cci.cci = c.cci.cci ∧ cc.status = Status.NotAFinding) = B
              tauto
            · generalize (∃ cc ∈ t, cc.cci.cci = k ∧ cc.status = Status.Open) = A
              generalize (∃ cc ∈ t, cc.cci.cci = k ∧ cc.status = Status.NotAFinding) = B
              tauto
          · rw [if_neg hf]
            by_cases hp : mapContainsNum p c.cci.cci = true
            · rw [if_pos hp, ih, mapContainsNum_mapAppendNum]
              by_cases hk : c.cci.cci = k
              · subst hk
                generalize (∃ cc ∈ t, cc.cci.cci = c.cci.cci ∧ cc.status = Status.Open) = A
                generalize (∃ cc ∈ t, cc.cci.cci = c.cci.cci ∧ cc.status = Status.NotAFinding) = B
                tauto
              · generalize (∃ cc ∈ t, cc.cci.cci = k ∧ cc.status = Status.Open) = A
                generalize (∃ cc ∈ t, cc.cci.cci = k ∧ cc.status = Status.NotAFinding) = B
                tauto
            · rw [if_neg hp, ih, mapContainsNum_append_single_iff]
              by_cases hk : c.cci.cci = k
              · subst hk
                generalize (∃ cc ∈ t, cc.cci.cci = c.cci.cci ∧ cc.status = Status.Open) = A
                generalize (∃ cc ∈ t, cc.cci.cci = c.cci.cci ∧ cc.status = Status.NotAFinding) = B
                tauto
              · generalize (∃ cc ∈ t, cc.cci.cci = k ∧ cc.status = Status.Open) = A
                generalize (∃ cc ∈ t, cc.cci.cci = k ∧ cc.status = Status.NotAFinding) = B
                tauto
      | NotReviewed =>
          simp only [classifyStep, hs]
          simp only [show (Status.NotReviewed = Status.Open) ↔ False from by simp, and_false,
            false_or, show (Status.NotReviewed = Status.NotAFinding) ↔ False from by simp]
          rw [ih]
      | NotApplicable =>
          simp only [classifyStep, hs]
          simp only [show (Status.NotApplicable = Status.Open) ↔ False from by simp, and_false,
            false_or, show (Status.NotApplicable = Status.NotAFinding) ↔ False from by simp]
          rw [ih]

/-! ## C1: the report partitions CCIs by pass/fail -/

theorem emitted_noncompliant_iff (ccis : List CCIr) (checks : List CKLCheckr)
    (curDate username : String) (k : Nat) :
    emittedWith (emassRows ccis checks curDate username) k "Non-Compliant" ↔
      mapContainsNum (classify checks).1 k = true := by
  unfold emittedWith emassRows
  constructor
  · rintro ⟨r, hr, hk, hstat⟩
    rcases List.mem_append.1 hr with h | h
    · rcases List.mem_append.1 h with h | h
      · rcases List.mem_map.1 h with ⟨q, hq, rfl⟩
        rw [mapContainsNum_iff]
        exact ⟨q, hq, hk⟩
      · rcases List.mem_map.1 h with ⟨q, hq, rfl⟩
        have : (passedRow curDate username q).complianceStatus = "Compliant" := rfl
        rw [this] at hstat
        exact absurd hstat (by decide)
    · rcases List.mem_map.1 h with ⟨cr, hcr, rfl⟩
      have : (importRow cr).complianceStatus = "" := rfl
      rw [this] at hstat
      exact absurd hstat (by decide)
  · intro h
    rcases (mapContainsNum_iff _ _).1 h with ⟨q, hq, hk⟩
    refine ⟨failedRow curDate username q, ?_, hk, rfl⟩
    exact List.mem_append.2 (Or.inl (List.mem_append.2 (Or.inl (List.mem_map.2 ⟨q, hq, rfl⟩))))

theorem emitted_compliant_iff (ccis : List CCIr) (checks : List CKLCheckr)
    (curDate username : String) (k : Nat) :
    emittedWith (emassRows ccis checks curDate username) k "Compliant" ↔
      mapContainsNum (classify checks).2 k = true := by
  unfold emittedWith emassRows
  constructor
  · rintro ⟨r, hr, hk, hstat⟩
    rcases List.mem_append.1 hr with h | h
    · rcases List.mem_append.1 h with h | h
      · rcases List.mem_map.1 h with ⟨q, hq, rfl⟩
        have : (failedRow curDate username q).complianceStatus = "Non-Compliant" := rfl
        rw [this] at hstat
        exact absurd hstat (by decide)
      · rcases List.mem_map.1 h with ⟨q, hq, rfl⟩
        rw [mapContainsNum_iff]
        exact ⟨q, hq, hk⟩
    · rcases List.mem_map.1 h with ⟨cr, hcr, rfl⟩
      have : (importRow cr).complianceStatus = "" := rfl
      rw [this] at hstat
      exact absurd hstat (by decide)
  · intro h
    rcases (mapContainsNum_iff _ _).1 h with ⟨q, hq, hk⟩
    refine ⟨passedRow curDate username q, ?_, hk, rfl⟩
    exact List.mem_append.2 (Or.inl (List.mem_append.2 (Or.inr (List.mem_map.2 ⟨q, hq, rfl⟩))))

theorem emitted_noncompliant_char (ccis : List CCIr) (checks : List CKLCheckr)
    (curDate username : String) (k : Nat) :
    emittedWith (emassRows ccis checks curDate username) k "Non-Compliant" ↔
      hasOpenFor checks k := by
  rw [emitted_noncompliant_iff]
  unfold classify
  rw [classify_failed_aux checks [] [] k]
  unfold hasOpenFor
  simp [mapContainsNum]

theorem emitted_compliant_char (ccis : List CCIr) (checks : List CKLCheckr)
    (curDate username : String) (k : Nat) :
    emittedWith (emassRows ccis checks curDate username) k "Compliant" ↔
      (hasNafFor checks k ∧ ¬ hasOpenFor checks k) := by
  rw [emitted_compliant_iff]
  unfold classify
  rw [classify_passed_aux checks [] [] k]
  unfold hasNafFor hasOpenFor
  simp [mapContainsNum]
  tauto

/-- C1: in the eMASS Test Result report a CCI is emitted
"Non-Compliant" if and only if at least one CKLCheck mapped to it is
Open, and "Compliant" if and only if at least one mapped CKLCheck is
NotAFinding and none is Open; no CCI is emitted in both groups, and
the classification is invariant under reordering the checks. -/
theorem emass_report_cci_partition (ccis : List CCIr) (checks : List CKLCheckr)
    (curDate username : String) (k : Nat) :
    (emittedWith (emassRows ccis checks curDate username) k "Non-Compliant" ↔
        hasOpenFor checks k)
    ∧ (emittedWith (emassRows ccis checks curDate username) k "Compliant" ↔
        (hasNafFor checks k ∧ ¬ hasOpenFor checks k))
    ∧ ¬ (emittedWith (emassRows ccis checks curDate username) k "Non-Compliant" ∧
          emittedWith (emassRows ccis checks curDate username) k "Compliant")
    ∧ (∀ checks' : List CKLCheckr, checks.Perm checks' →
        ((emittedWith (emassRows ccis checks' curDate username) k "Non-Compliant" ↔
            emittedWith (emassRows ccis checks curDate username) k "Non-Compliant")
          ∧ (emittedWith (emassRows ccis checks' curDate username) k "Compliant" ↔
              emittedWith (emassRows ccis checks curDate username) k "Compliant"))) := by
  refine ⟨emitted_noncompliant_char ccis checks curDate username k,
    emitted_compliant_char ccis checks curDate username k, ?_, ?_⟩
  · rintro ⟨h1, h2⟩
    rw [emitted_noncompliant_char] at h1
    rw [emitted_compliant_char] at h2
    exact h2.2 h1
  · intro checks' hperm
    have hopen : hasOpenFor checks' k ↔ hasOpenFor checks k := by
      unfold hasOpenFor
      constructor
      · rintro ⟨cc, hm, h⟩; exact ⟨cc, hperm.mem_iff.2 hm, h⟩
      · rintro ⟨cc, hm, h⟩; exact ⟨cc, hperm.mem_iff.1 hm, h⟩
    have hnaf : hasNafFor checks' k ↔ hasNafFor checks k := by
      unfold hasNafFor
      constructor
      · rintro ⟨cc, hm, h⟩; exact ⟨cc, hperm.mem_iff.2 hm, h⟩
      · rintro ⟨cc, hm, h⟩; exact ⟨cc, hperm.mem_iff.1 hm, h⟩
    constructor
    · rw [emitted_noncompliant_char, emitted_noncompliant_char, hopen]
    · rw [emitted_compliant_char, emitted_compliant_char, hnaf, hopen]

/-- Witness for C1 at a concrete store: one CCI with one Open and one
NotAFinding check, also evaluated on the reversed check order. -/
theorem emass_report_cci_partition_witness :
    (emittedWith (emassRows [wCCI] [wCheckOpen, wCheckNaf] "d" "u") 5 "Non-Compliant" ↔
        hasOpenFor [wCheckOpen, wCheckNaf] 5)
    ∧ (emittedWith (emassRows [wCCI] [wCheckNaf, wCheckOpen] "d" "u") 5 "Non-Compliant" ↔
        emittedWith (emassRows [wCCI] [wCheckOpen, wCheckNaf] "d" "u") 5 "Non-Compliant") :=
  ⟨(emass_report_cci_partition [wCCI] [wCheckOpen, wCheckNaf] "d" "u" 5).1,
   ((emass_report_cci_partition [wCCI] [wCheckOpen, wCheckNaf] "d" "u" 5).2.2.2
       [wCheckNaf, wCheckOpen] (by decide)).1⟩

/-! ## C10: counting lemmas -/

theorem mapContainsNum_keysNum (m : CCIMap) (k : Nat) :
    mapContainsNum m k = true ↔ k ∈ m.map (fun q => q.1.cci) := by
  rw [mapContainsNum_iff]
  simp [List.mem_map]

theorem mapAppendNum_keysNum (m : CCIMap) (k : Nat) (cc : CKLCheckr) :
    (mapAppendNum m k cc).map (fun q => q.1.cci) = m.map (fun q => q.1.cci) := by
  induction m with
  | nil => rfl
  | cons q t ih =>
      simp only [mapAppendNum, List.map_cons] at *
      by_cases h : (q.1.cci == k) = true
      · simp only [h, if_true, ite_true]
        rw [ih]
      · simp only [h, if_false, Bool.false_eq_true, ite_false]
        rw [ih]

/-- The classification keeps the keys of both maps without duplicates. -/
theorem classify_keys_nodup (l : List CKLCheckr) :
    ∀ (f p : CCIMap),
      (f.map (fun q => q.1.cci)).Nodup → (p.map (fun q => q.1.cci)).Nodup →
      ((l.foldl classifyStep (f, p)).1.map (fun q => q.1.cci)).Nodup ∧
        ((l.foldl classifyStep (f, p)).2.map (fun q => q.1.cci)).Nodup := by
  induction l with
  | nil => intro f p hf hp; exact ⟨hf, hp⟩
  | cons c t ih =>
      intro f p hf hp
      rw [List.foldl_cons]
      cases hs : c.status with
      | Open =>
          simp only [classifyStep, hs]
          apply ih
          · by_cases hfc : mapContainsNum f c.cci.cci = true
            · rw [if_pos hfc, mapAppendNum_keysNum]
              exact hf
            · rw [if_neg hfc]
              rw [List.map_append]
              rw [List.nodup_append]
              refine ⟨hf, by simp, ?_⟩
              intro a ha hsingle
              simp only [List.map_cons, List.map_nil, List.mem_singleton] at hsingle
              subst hsingle
              exact hfc ((mapContainsNum_keysNum f c.cci.cci).2 ha)
          · by_cases hpc : mapContainsNum p c.cci.cci = true
            · rw [if_pos hpc]
              exact ((List.filter_sublist p).map (fun q => q.1.cci)).nodup hp
            · rw [if_neg hpc]
              exact hp
      | NotAFinding =>
          simp only [classifyStep, hs]
          by_cases hfc : mapContainsNum f c.cci.cci = true
          · rw [if_pos hfc]
            exact ih f p hf hp
          · rw [if_neg hfc]
            apply ih
            · exact hf
            · by_cases hpc : mapContainsNum p c.cci.cci = true
              · rw [if_pos hpc, mapAppendNum_keysNum]
                exact hp
              · rw [if_neg hpc]
                rw [List.map_append, List.nodup_append]
                refine ⟨hp, by simp, ?_⟩
                intro a ha hsingle
                simp only [List.map_cons, List.map_nil, List.mem_singleton] at hsingle
                subst hsingle
                exact hpc ((mapContainsNum_keysNum p c.cci.cci).2 ha)
      | NotReviewed =>
          simp only [classifyStep, hs]
          exact ih f p hf hp
      | NotApplicable =>
          simp only [classifyStep, hs]
          exact ih f p hf hp

theorem countP_key_of_nodup {α : Type} (key : α → Nat) (l : List α)
    (h : (l.map key).Nodup) (k : Nat) :
    l.countP (fun y => key y == k) = if k ∈ l.map key then 1 else 0 := by
  induction l with
  | nil => simp
  | cons a t ih =>
      simp only [List.map_cons, List.nodup_cons] at h
      rw [List.countP_cons, ih h.2]
      by_cases hk : key a = k
      · subst hk
        simp [h.1]
      · have h1 : ¬ ((key a == k) = true) := by simp [hk]
        rw [if_neg h1, Nat.add_zero]
        have h2 : (k ∈ List.map key (a :: t)) ↔ k ∈ List.map key t := by
          simp only [List.map_cons, List.mem_cons]
          constructor
          · rintro (hh | hh)
            · exact absurd hh.symm hk
            · exact hh
          · exact fun hh => Or.inr hh
        by_cases h3 : k ∈ List.map key t
        · rw [if_pos h3, if_pos (h2.2 h3)]
        · rw [if_neg h3, if_neg (fun hh => h3 (h2.1 hh))]

theorem countP_filter_key_of_nodup {α : Type} (key : α → Nat) (l : List α)
    (h : (l.map key).Nodup) (x : α) (hx : x ∈ l) (q : α → Bool) :
    (l.filter q).countP (fun y => key y == key x) = if q x then 1 else 0 := by
  have hnd : ((l.filter q).map key).Nodup :=
    ((List.filter_sublist l).map key).nodup h
  rw [countP_key_of_nodup key _ hnd]
  by_cases hq : q x = true
  · rw [if_pos hq, if_pos]
    exact List.mem_map.2 ⟨x, List.mem_filter.2 ⟨hx, hq⟩, rfl⟩
  · rw [if_neg hq, if_neg]
    rintro hmem
    rcases List.mem_map.1 hmem with ⟨y, hyf, hyk⟩
    rcases List.mem_filter.1 hyf with ⟨hyl, hyq⟩
    have : y = x := List.inj_on_of_nodup_map h hyl hx hyk
    rw [this] at hyq
    exact hq hyq

theorem countP_map_rowkey {α : Type} (l : List α) (mk : α → Row) (key : α → Nat)
    (hmk : ∀ q, (mk q).cci.cci = key q) (k : Nat) :
    (l.map mk).countP (fun r => r.cci.cci == k) = l.countP (fun q => key q == k) := by
  induction l with
  | nil => rfl
  | cons q t ih =>
      simp only [List.map_cons, List.countP_cons, ih, hmk]

/-- C10: the eMASS report emits exactly one row for every CCI that
carries imported test-result data — in the failed loop, the passed
loop, or, when no CKLCheck classifies it, in the old-test-results loop with
empty current-result columns and its imported compliance, date, tester
and results in the latest-test-result columns. -/
theorem emass_report_imported_cci_once (ccis : List CCIr) (checks : List CKLCheckr)
    (curDate username : String) (c : CCIr)
    (hnodup : (ccis.map (fun x => x.cci)).Nodup) (hc : c ∈ ccis) (himp : c.isImport = true) :
    ((emassRows ccis checks curDate username).countP (fun r => r.cci.cci == c.cci) = 1)
    ∧ (¬ hasOpenFor checks c.cci → ¬ hasNafFor checks c.cci →
        ∃ r ∈ emassRows ccis checks curDate username,
          r.cci.cci = c.cci ∧ r.complianceStatus = "" ∧ r.dateTested = "" ∧
            r.testedBy = "" ∧ r.currentChecks = [] ∧
            r.latestCompliance = c.importCompliance ∧
            r.latestDateTested = c.importDateTested ∧
            r.latestTestedBy = c.importTestedBy ∧
            r.latestTestResults = c.importTestResults) := by
  have hnodups := classify_keys_nodup checks [] [] (by simp) (by simp)
  have hopen_iff : mapContainsNum (classify checks).1 c.cci = true ↔
      hasOpenFor checks c.cci := by
    unfold classify
    rw [classify_failed_aux checks [] [] c.cci]
    unfold hasOpenFor
    simp [mapContainsNum]
  have hpass_iff : mapContainsNum (classify checks).2 c.cci = true ↔
      (hasNafFor checks c.cci ∧ ¬ hasOpenFor checks c.cci) := by
    unfold classify
    rw [classify_passed_aux checks [] [] c.cci]
    unfold hasNafFor hasOpenFor
    simp [mapContainsNum]
    tauto
  constructor
  · unfold emassRows
    rw [List.countP_append, List.countP_append]
    have h1 : ((classify checks).1.map (failedRow curDate username)).countP
        (fun r => r.cci.cci == c.cci) =
        if c.cci ∈ (classify checks).1.map (fun q => q.1.cci) then 1 else 0 := by
      rw [countP_map_rowkey _ _ (fun q : CCIr × List CKLCheckr => q.1.cci) (fun q => rfl)]
      exact countP_key_of_nodup (fun q : CCIr × List CKLCheckr => q.1.cci) _ hnodups.1 c.cci
    have h2 : ((classify checks).2.map (passedRow curDate username)).countP
        (fun r => r.cci.cci == c.cci) =
        if c.cci ∈ (classify checks).2.map (fun q => q.1.cci) then 1 else 0 := by
      rw [countP_map_rowkey _ _ (fun q : CCIr × List CKLCheckr => q.1.cci) (fun q => rfl)]
      exact countP_key_of_nodup (fun q : CCIr × List CKLCheckr => q.1.cci) _ hnodups.2 c.cci
    have h3 : ((ccis.filter (fun x =>
          x.isImport && !(mapContainsNum (classify checks).1 x.cci)
            && !(mapContainsNum (classify checks).2 x.cci))).map importRow).countP
        (fun r => r.cci.cci == c.cci) =
        if (c.isImport && !(mapContainsNum (classify checks).1 c.cci)
            && !(mapContainsNum (classify checks).2 c.cci)) then 1 else 0 := by
      rw [countP_map_rowkey _ _ (fun x : CCIr => x.cci) (fun q => rfl)]
      exact countP_filter_key_of_nodup (fun x : CCIr => x.cci) ccis hnodup c hc _
    rw [h1, h2, h3]
    by_cases hF : mapContainsNum (classify checks).1 c.cci = true
    · have hmemF : c.cci ∈ (classify checks).1.map (fun q => q.1.cci) :=
        (mapContainsNum_keysNum _ _).1 hF
      have hnP : ¬ mapContainsNum (classify checks).2 c.cci = true := by
        intro hP
        exact (hpass_iff.1 hP).2 (hopen_iff.1 hF)
      have hmemP : c.cci ∉ (classify checks).2.map (fun q => q.1.cci) :=
        fun hm => hnP ((mapContainsNum_keysNum _ _).2 hm)
      have hcond : (c.isImport && !(mapContainsNum (classify checks).1 c.cci)
          && !(mapContainsNum (classify checks).2 c.cci)) = false := by
        rw [hF]
        simp
      rw [if_pos hmemF, if_neg hmemP, hcond]
      simp
    · have hmemF : c.cci ∉ (classify checks).1.map (fun q => q.1.cci) :=
        fun hm => hF ((mapContainsNum_keysNum _ _).2 hm)
      have hF' : mapContainsNum (classify checks).1 c.cci = false := by
        cases hX : mapContainsNum (classify checks).1 c.cci
        · rfl
        · exact absurd hX hF
      by_cases hP : mapContainsNum (classify checks).2 c.cci = true
      · have hmemP : c.cci ∈ (classify checks).2.map (fun q => q.1.cci) :=
          (mapContainsNum_keysNum _ _).1 hP
        have hcond : (c.isImport && !(mapContainsNum (classify checks).1 c.cci)
            && !(mapContainsNum (classify checks).2 c.cci)) = false := by
          rw [hP]
          simp
        rw [if_neg hmemF, if_pos hmemP, hcond]
        simp
      · have hmemP : c.cci ∉ (classify checks).2.map (fun q => q.1.cci) :=
          fun hm => hP ((mapContainsNum_keysNum _ _).2 hm)
        have hP' : mapContainsNum (classify checks).2 c.cci = false := by
          cases hX : mapContainsNum (classify checks).2 c.cci
          · rfl
          · exact absurd hX hP
        have hcond : (c.isImport && !(mapContainsNum (classify checks).1 c.cci)
            && !(mapContainsNum (classify checks).2 c.cci)) = true := by
          rw [himp, hF', hP']
          rfl
        rw [if_neg hmemF, if_neg hmemP, hcond]
        simp
  · intro hO hN
    have hF' : mapContainsNum (classify checks).1 c.cci = false := by
      cases hX : mapContainsNum (classify checks).1 c.cci
      · rfl
      · exact absurd (hopen_iff.1 hX) hO
    have hP' : mapContainsNum (classify checks).2 c.cci = false := by
      cases hX : mapContainsNum (classify checks).2 c.cci
      · rfl
      · exact absurd (hpass_iff.1 hX).1 hN
    refine ⟨importRow c, ?_, rfl, rfl, rfl, rfl, rfl, ?_, ?_, ?_, ?_⟩
    · unfold emassRows
      refine List.mem_append.2 (Or.inr (List.mem_map.2 ⟨c, ?_, rfl⟩))
      refine List.mem_filter.2 ⟨hc, ?_⟩
      rw [himp, hF', hP']
      rfl
    · simp [importRow, himp]
    · simp [importRow, himp]
    · simp [importRow, himp]
    · simp [importRow, himp]

/-- Witness for C10: a store with two imported CCIs, one failed by an
Open check and one untouched by any check. -/
theorem emass_report_imported_cci_once_witness :
    ((emassRows [wCCI, wCCI2] [wCheckOpen] "d" "u").countP
        (fun r => r.cci.cci == wCCI2.cci) = 1)
    ∧ (¬ hasOpenFor [wCheckOpen] wCCI2.cci → ¬ hasNafFor [wCheckOpen] wCCI2.cci →
        ∃ r ∈ emassRows [wCCI, wCCI2] [wCheckOpen] "d" "u",
          r.cci.cci = wCCI2.cci ∧ r.complianceStatus = "" ∧ r.dateTested = "" ∧
            r.testedBy = "" ∧ r.currentChecks = [] ∧
            r.latestCompliance = wCCI2.importCompliance ∧
            r.latestDateTested = wCCI2.importDateTested ∧
            r.latestTestedBy = wCCI2.importTestedBy ∧
            r.latestTestResults = wCCI2.importTestResults) :=
  emass_report_imported_cci_once [wCCI, wCCI2] [wCheckOpen] "d" "u" wCCI2
    (by decide) (by decide) (by decide)

/-! ## C4, C5, C6: guarded deletes and duplicate rejection -/

/-- C4: deleting an Asset that still has associated STIGs fails and
leaves every row of the store unchanged. -/
theorem delete_asset_with_stigs_fails (db : DB) (a : AssetR)
    (h : ∃ q ∈ db.assetStigs, q.1 = a.id) :
    deleteAsset db a = (false, db) := by
  unfold deleteAsset
  have hb : db.assetStigs.any (fun p => p.1 == a.id) = true := by
    rcases h with ⟨q, hq, hid⟩
    simp only [List.any_eq_true, beq_iff_eq]
    exact ⟨q, hq, hid⟩
  rw [if_pos hb]

/-- Witness for C4 on the sample store, whose Asset has one attached STIG. -/
theorem delete_asset_with_stigs_fails_witness :
    deleteAsset wDB wAsset = (false, wDB) :=
  delete_asset_with_stigs_fails wDB wAsset ⟨(1, 3), by decide, by decide⟩

/-- C5: deleting a STIG still referenced by some Asset fails and
leaves every row of the store unchanged. -/
theorem delete_stig_referenced_fails (db : DB) (s : StigR)
    (h : ∃ q ∈ db.assetStigs, q.2 = s.id) :
    deleteStig db s = (false, db) := by
  unfold deleteStig
  have hb : db.assetStigs.any (fun p => p.2 == s.id) = true := by
    rcases h with ⟨q, hq, hid⟩
    simp only [List.any_eq_true, beq_iff_eq]
    exact ⟨q, hq, hid⟩
  rw [if_pos hb]

/-- Witness for C5 on the sample store, whose STIG is attached to an Asset. -/
theorem delete_stig_referenced_fails_witness :
    deleteStig wDB wStig = (false, wDB) :=
  delete_stig_referenced_fails wDB wStig ⟨(1, 3), by decide, by decide⟩

/-- C6: importing a Family, CCI, or STIG whose natural key (acronym;
CCI number; title, version, release) is already present is rejected:
the operation fails and the store, with its existing row, is unchanged. -/
theorem duplicate_import_rejected (db : DB) (f : FamilyR) (c : DbCCI) (s : StigR)
    (hf : ∃ g ∈ db.families, g.acronym = f.acronym)
    (hcd : ∃ d ∈ db.ccis, d.cci = c.cci)
    (hst : ∃ t ∈ db.stigs, t.title = s.title ∧ t.version = s.version ∧ t.release = s.release) :
    addFamily db f = (false, db) ∧ addCCI db c = (false, db) ∧ addStig db s = (false, db) := by
  refine ⟨?_, ?_, ?_⟩
  · unfold addFamily
    have hb : db.families.any (fun g => g.acronym == f.acronym) = true := by
      rcases hf with ⟨g, hg, hk⟩
      simp only [List.any_eq_true, beq_iff_eq]
      exact ⟨g, hg, hk⟩
    rw [if_pos hb]
  · unfold addCCI
    have hb : db.ccis.any (fun d => d.cci == c.cci) = true := by
      rcases hcd with ⟨d, hd, hk⟩
      simp only [List.any_eq_true, beq_iff_eq]
      exact ⟨d, hd, hk⟩
    rw [if_pos hb]
  · unfold addStig
    have hb : db.stigs.any (fun t =>
        t.title == s.title && t.version == s.version && t.release == s.release) = true := by
      rcases hst with ⟨t, ht, hk1, hk2, hk3⟩
      simp only [List.any_eq_true, Bool.and_eq_true, beq_iff_eq]
      exact ⟨t, ht, ⟨hk1, hk2⟩, hk3⟩
    rw [if_pos hb]

/-- Witness for C6: re-adding the sample store's own Family, CCI, and
STIG (same natural keys) is rejected. -/
theorem duplicate_import_rejected_witness :
    addFamily wDB wFamily = (false, wDB) ∧ addCCI wDB wDbCCI = (false, wDB) ∧
      addStig wDB wStig = (false, wDB) :=
  duplicate_import_rejected wDB wFamily wDbCCI wStig
    ⟨wFamily, by decide, rfl⟩ ⟨wDbCCI, by decide, rfl⟩
    ⟨wStig, by decide, rfl, rfl, rfl⟩

/-! ## C3: attaching a STIG creates one CKLCheck per STIGCheck -/

theorem countP_map_comp {α β : Type} (l : List α) (f : α → β) (keyb : β → Nat)
    (keya : α → Nat) (hkey : ∀ x, keyb (f x) = keya x) (k : Nat) :
    (l.map f).countP (fun y => keyb y == k) = l.countP (fun x => keya x == k) := by
  induction l with
  | nil => rfl
  | cons x t ih => simp only [List.map_cons, List.countP_cons, ih, hkey]

/-- C3: attaching a STIG to an Asset either fails leaving the store
unchanged, or creates exactly the new CKLCheck rows: one per STIGCheck
of the STIG, each for this Asset with default status "not reviewed",
appended in one step (the model's transaction). -/
theorem attach_stig_creates_ckl (db : DB) (s : StigR) (a : AssetR)
    (hids : (db.stigChecks.map (fun sc => sc.id)).Nodup) :
    ((addStigToAsset db s a).1 = false → (addStigToAsset db s a).2 = db)
    ∧ ((addStigToAsset db s a).1 = true →
        ∃ newRows : List CklCheckR,
          (addStigToAsset db s a).2.cklChecks = db.cklChecks ++ newRows
          ∧ newRows.length = (db.stigChecks.filter (fun sc => sc.stigId == s.id)).length
          ∧ (∀ ck ∈ newRows, ck.status = Status.NotReviewed ∧ ck.assetId = a.id)
          ∧ (∀ sc ∈ db.stigChecks, sc.stigId = s.id →
              newRows.countP (fun ck => ck.stigCheckId == sc.id) = 1)) := by
  unfold addStigToAsset
  by_cases hdup : db.assetStigs.any (fun p => p.1 == a.id && p.2 == s.id) = true
  · rw [if_pos hdup]
    exact ⟨fun _ => rfl, fun hcontra => absurd hcontra (by simp)⟩
  · rw [if_neg hdup]
    constructor
    · intro hcontra
      exact absurd hcontra (by simp)
    · intro
      refine ⟨(db.stigChecks.filter (fun sc => sc.stigId == s.id)).map (defaultCklCheck a),
        rfl, by simp, ?_, ?_⟩
      · intro ck hck
        rcases List.mem_map.1 hck with ⟨sc, hsc, rfl⟩
        exact ⟨rfl, rfl⟩
      · intro sc hsc hstig
        rw [countP_map_comp (db.stigChecks.filter (fun x => x.stigId == s.id))
          (defaultCklCheck a) (fun ck : CklCheckR => ck.stigCheckId)
          (fun x : StigCheckR => x.id) (fun x => rfl) sc.id]
        have hcount := countP_filter_key_of_nodup (fun x : StigCheckR => x.id) db.stigChecks
          hids sc hsc (fun x => x.stigId == s.id)
        have hq : (sc.stigId == s.id) = true := beq_iff_eq.2 hstig
        rw [hq] at hcount
        exact hcount.trans (by rfl)

/-- Witness for C3 on the sample store with no attachments yet: the
STIG has two STIGChecks, and attaching creates exactly those rows. -/
theorem attach_stig_creates_ckl_witness :
    ((addStigToAsset wDBdetached wStig wAsset).1 = false →
      (addStigToAsset wDBdetached wStig wAsset).2 = wDBdetached)
    ∧ ((addStigToAsset wDBdetached wStig wAsset).1 = true →
        ∃ newRows : List CklCheckR,
          (addStigToAsset wDBdetached wStig wAsset).2.cklChecks =
            wDBdetached.cklChecks ++ newRows
          ∧ newRows.length =
              (wDBdetached.stigChecks.filter (fun sc => sc.stigId == wStig.id)).length
          ∧ (∀ ck ∈ newRows, ck.status = Status.NotReviewed ∧ ck.assetId = wAsset.id)
          ∧ (∀ sc ∈ wDBdetached.stigChecks, sc.stigId = wStig.id →
              newRows.countP (fun ck => ck.stigCheckId == sc.id) = 1)) :=
  attach_stig_creates_ckl wDBdetached wStig wAsset (by decide)

/-! ## C7: checklist export / import round-trip -/

theorem cklToStatus_statusToCkl (st : Status) : cklToStatus (statusToCkl st) = st := by
  cases st <;> decide

theorem map_eq_self_of {α : Type} (l : List α) (f : α → α) (h : ∀ x ∈ l, f x = x) :
    l.map f = l := by
  induction l with
  | nil => rfl
  | cons a t ih =>
      simp only [List.map_cons]
      rw [h a (List.mem_cons_self a t), ih (fun x hx => h x (List.mem_cons_of_mem a hx))]

theorem find?_eq_some_of_unique {α : Type} (q : α → Bool) :
    ∀ (l : List α) (x : α), x ∈ l → q x = true → (∀ y ∈ l, q y = true → y = x) →
      l.find? q = some x
  | [], x, hx, _, _ => absurd hx (List.not_mem_nil x)
  | a :: t, x, hx, hqx, huniq => by
      by_cases hqa : q a = true
      · rw [List.find?_cons_of_pos _ hqa, huniq a (List.mem_cons_self a t) hqa]
      · rw [List.find?_cons_of_neg _ (by simp [hqa])]
        rcases List.mem_cons.1 hx with h | h
        · subst h
          exact absurd hqx hqa
        · exact find?_eq_some_of_unique q t x h hqx
            (fun y hy => huniq y (List.mem_cons_of_mem a hy))

/-- C7: exporting the checklist file of an Asset/STIG pair and
re-importing it reproduces the evaluation records exactly — statuses,
finding details (and comments) — so the store is unchanged. -/
theorem ckl_export_import_roundtrip (db : DB) (a : AssetR) (s : StigR)
    (h : (db.cklChecks.map (fun ck => (ck.assetId, ck.stigCheckId))).Nodup) :
    importCkl db a (exportCkl db a s) = db := by
  unfold importCkl
  have hmap : db.cklChecks.map (fun ck =>
      if ck.assetId == a.id then
        match (exportCkl db a s).find? (fun en => en.vuln == ck.stigCheckId) with
        | some en =>
            { ck with status := cklToStatus en.status
                      findingDetails := en.findingDetails
                      comments := en.comments }
        | none => ck
      else ck) = db.cklChecks := by
    apply map_eq_self_of
    intro ck hck
    by_cases hassid : (ck.assetId == a.id) = true
    · rw [if_pos hassid]
      by_cases hstig : db.stigChecks.any
          (fun sc => sc.id == ck.stigCheckId && sc.stigId == s.id) = true
      · have hfind : (exportCkl db a s).find? (fun en => en.vuln == ck.stigCheckId) =
            some { vuln := ck.stigCheckId, status := statusToCkl ck.status,
                   findingDetails := ck.findingDetails, comments := ck.comments } := by
          apply find?_eq_some_of_unique
          · unfold exportCkl
            exact List.mem_map.2 ⟨ck,
              List.mem_filter.2 ⟨hck, by rw [hassid, hstig]; rfl⟩, rfl⟩
          · simp
          · rintro en hen hq
            unfold exportCkl at hen
            rcases List.mem_map.1 hen with ⟨ck2, hck2f, rfl⟩
            rcases List.mem_filter.1 hck2f with ⟨hck2, hq2⟩
            have h1 : ck2.stigCheckId = ck.stigCheckId := beq_iff_eq.1 hq
            have h2 : ck2.assetId = a.id := by
              simp only [Bool.and_eq_true] at hq2
              exact beq_iff_eq.1 hq2.1
            have h3 : ck.assetId = a.id := beq_iff_eq.1 hassid
            have hpair : (fun ckk : CklCheckR => (ckk.assetId, ckk.stigCheckId)) ck2 =
                (fun ckk : CklCheckR => (ckk.assetId, ckk.stigCheckId)) ck := by
              simp only [h1, h2, h3]
            have : ck2 = ck := List.inj_on_of_nodup_map h hck2 hck hpair
            rw [this]
        rw [hfind]
        simp [cklToStatus_statusToCkl]
      · have hfind : (exportCkl db a s).find? (fun en => en.vuln == ck.stigCheckId) =
            none := by
          rw [List.find?_eq_none]
          rintro en hen
          unfold exportCkl at hen
          rcases List.mem_map.1 hen with ⟨ck2, hck2f, rfl⟩
          rcases List.mem_filter.1 hck2f with ⟨hck2, hq2⟩
          intro hq
          have h1 : ck2.stigCheckId = ck.stigCheckId := beq_iff_eq.1 hq
          have h2 : ck2.assetId = a.id := by
            have hq2' := hq2
            simp only [Bool.and_eq_true] at hq2'
            exact beq_iff_eq.1 hq2'.1
          have h3 : ck.assetId = a.id := beq_iff_eq.1 hassid
          have hpair : (fun ckk : CklCheckR => (ckk.assetId, ckk.stigCheckId)) ck2 =
              (fun ckk : CklCheckR => (ckk.assetId, ckk.stigCheckId)) ck := by
            simp only [h1, h2, h3]
          have heq : ck2 = ck := List.inj_on_of_nodup_map h hck2 hck hpair
          rw [heq] at hq2
          simp only [Bool.and_eq_true] at hq2
          exact hstig hq2.2
        rw [hfind]
    · rw [if_neg hassid]
  rw [hmap]

/-- Witness for C7 on the sample store with two evaluation records. -/
theorem ckl_export_import_roundtrip_witness :
    importCkl wDB wAsset (exportCkl wDB wAsset wStig) = wDB :=
  ckl_export_import_roundtrip wDB wAsset wStig (by decide)
